import Mathlib

/-!
# Verification of `playwright-utils` URL normalization, matching and event waiting

Shallow embedding of the hand-written logic in `src/index.ts` of the
`lcrespilho/playwright-utils` repository.  JavaScript strings are modelled as
`List Char`; a Playwright `Request` is modelled by the data the library reads
from it (its URL and optional POST body); the JavaScript `RegExp` objects the
library builds from template literals are modelled by compiling the very same
pattern strings into a small token language (literal characters, `.`, and
`.*` / `.*?` wildcards — the only constructs those template literals produce).
-/

namespace PlaywrightUtils

/-- A Playwright `Request` as seen by this library: `request.url()` and
`request.postData()` (which may be `null`, modelled by `none`). -/
structure ObservedRequest where
  url : List Char
  postData : Option (List Char)
deriving DecidableEq, Repr

/-- A Playwright `Response` as seen by this library: it only ever asks for the
correlated request via `response.request()`. -/
structure ObservedResponse where
  request : ObservedRequest
deriving DecidableEq, Repr

/-! ## URL normalizer (`flatRequestUrl`) -/

/-- One global pass of `.replace(/\r\n|\n|\r/g, '&')`: the regex engine scans
left to right trying the alternatives `\r\n`, `\n`, `\r` in order, replaces
each match with `&`, and resumes after the replaced match. -/
def replNL : List Char → List Char
  | [] => []
  | '\r' :: '\n' :: rest => '&' :: replNL rest
  | '\r' :: rest => '&' :: replNL rest
  | '\n' :: rest => '&' :: replNL rest
  | c :: rest => c :: replNL rest

/-- One global pass of `.replace(/&&/g, '&')`: each matched `&&` becomes a
single `&` and scanning resumes after the match (the pass is **not** iterated
to a fixed point). -/
def replAmpAmp : List Char → List Char
  | [] => []
  | '&' :: '&' :: rest => '&' :: replAmpAmp rest
  | c :: rest => c :: replAmpAmp rest

/-- `.replace(/&$/g, '')`: strips one trailing `&` if present. -/
def stripTrailingAmp (s : List Char) : List Char :=
  if s.getLast? = some '&' then s.dropLast else s

/-- `flatRequestUrl` from `src/index.ts`: if the body (`postData() || ''`) is
empty the URL is returned unchanged; otherwise the body is appended to the URL
with `&` if the URL already contains `?` (else `?`), and the three `replace`
passes are applied to the combined string. -/
def flatRequestUrl (req : ObservedRequest) : List Char :=
  let url := req.url
  let body := req.postData.getD []
  if body = [] then url
  else
    let flatUrl := url ++ (if url.contains '?' then ['&'] else ['?']) ++ body
    stripTrailingAmp (replAmpAmp (replNL flatUrl))

/-- `flatResponseUrl` from `src/index.ts`: `flatRequestUrl(res.request())`. -/
def flatResponseUrl (res : ObservedResponse) : List Char :=
  flatRequestUrl res.request

/-! ## JavaScript regular expressions

The library only ever builds regular expressions out of literal characters,
escaped characters (`\?`), the metacharacter `.` and the quantified forms `.*`
and `.*?`.  We model a compiled pattern as a list of such tokens. -/

/-- A token of the fragment of JavaScript regular expressions this library
uses. -/
inductive RegexToken where
  /-- a character that must match exactly -/
  | lit (c : Char)
  /-- `.` — any character except a line terminator -/
  | anyChar
  /-- `.*` or `.*?` — any (possibly empty) run of non-line-terminator
  characters; greediness is irrelevant for `RegExp.prototype.test` on a
  lastIndex-free regex, which only reports whether a match exists -/
  | wildcard
deriving DecidableEq, Repr

/-- Whether `.` matches `c` in JavaScript: any character except the line
terminators `\n`, `\r`, U+2028, U+2029. -/
def isDotChar (c : Char) : Bool :=
  c != '\n' && c != '\r' && c != '\u2028' && c != '\u2029'

/-- Whether `c` is an *ordinary* character of JavaScript regular expressions:
not the escape introducer `\` and not one of the syntax characters
`.` `*` `+` `?` `|` `(` `)` `[` `]` `^` `$` or the braces.  An ordinary
character in a pattern string matches itself literally under `new RegExp`. -/
def jsRegexOrdinary (c : Char) : Bool :=
  !(['\\', '.', '*', '+', '?', '|', '(', ')', '[', ']',
     '\x7b', '\x7d', '^', '$'].contains c)

/-- Compiles one of the library's pattern strings to tokens: `\c` is the
literal `c`; `.*?` and `.*` are wildcards; `.` alone matches any
non-line-terminator character; anything else is a literal.  This agrees with
`new RegExp` on the library's fixed pattern skeletons and on interpolated
filter values made of `jsRegexOrdinary` characters; a filter value carrying
other JavaScript metacharacters (`+`, `|`, `(`…) would mean something else to
`new RegExp`, so theorems that quantify over interpolated filter values
restrict them to ordinary characters. -/
def parseRegex : List Char → List RegexToken
  | [] => []
  | '\\' :: [] => [.lit '\\']
  | '\\' :: d :: rest => .lit d :: parseRegex rest
  | '.' :: '*' :: '?' :: rest => .wildcard :: parseRegex rest
  | '.' :: '*' :: rest => .wildcard :: parseRegex rest
  | '.' :: rest => .anyChar :: parseRegex rest
  | c :: rest => .lit c :: parseRegex rest

/-- Does the token list match some *prefix* of `s`?  A backtracking engine
tries, for a wildcard, every number of non-line-terminator characters it could
consume; `test` reports whether any choice leads to a full match. -/
def matchPrefix : List RegexToken → List Char → Bool
  | [], _ => true
  | .lit _ :: _, [] => false
  | .lit c :: ts, x :: xs => x == c && matchPrefix ts xs
  | .anyChar :: _, [] => false
  | .anyChar :: ts, x :: xs => isDotChar x && matchPrefix ts xs
  | .wildcard :: ts, s =>
      (List.range (s.length + 1)).any fun i =>
        (s.take i).all isDotChar && matchPrefix ts (s.drop i)

/-- `RegExp.prototype.test` (search semantics) for a regex without the `g`
flag: the tokens may match starting at any position of `s`. -/
def regexTest (ts : List RegexToken) (s : List Char) : Bool :=
  match s with
  | [] => matchPrefix ts []
  | _ :: xs => matchPrefix ts s || regexTest ts xs

/-- Literal tokens for a whole string. -/
def lits (w : List Char) : List RegexToken := w.map RegexToken.lit

/-- Declarative matching relation: `TokMatch ts s` holds when the token list
`ts` matches the string `s` exactly (all of it). -/
inductive TokMatch : List RegexToken → List Char → Prop where
  | nil : TokMatch [] []
  | lit (c : Char) {ts s} : TokMatch ts s → TokMatch (.lit c :: ts) (c :: s)
  | any {c ts s} : isDotChar c = true → TokMatch ts s →
      TokMatch (.anyChar :: ts) (c :: s)
  | wild {w ts s} : (∀ c ∈ w, isDotChar c = true) → TokMatch ts s →
      TokMatch (.wildcard :: ts) (w ++ s)

/-- Declarative search semantics: the tokens match some substring of `s`. -/
def RegexSearch (ts : List RegexToken) (s : List Char) : Prop :=
  ∃ p m q, s = p ++ m ++ q ∧ TokMatch ts m

/-! ## Pattern matchers -/

/-- JavaScript `String.prototype.includes`: whether `needle` occurs as a
contiguous substring of `hay`. -/
def strIncludes (hay needle : List Char) : Bool :=
  match hay with
  | [] => needle.isEmpty
  | h :: rest => needle.isPrefixOf (h :: rest) || strIncludes rest needle

/-- A caller-supplied pattern: `RegExp | string` from `src/index.ts`.  (The
spec's data model stipulates patterns carry no mutable state, so the `RegExp`
case is a plain token list; a `RegExp` constructed with the `g` flag is
modelled separately by `JsRegExp` below.) -/
inductive Pattern where
  | str (s : List Char)
  | regex (ts : List RegexToken)

/-- `requestMatcher` from `src/index.ts`: a string pattern matches iff it is a
substring of the flattened URL (`String.prototype.includes`); a regex pattern
matches iff `pattern.test(flatRequestUrl(req))`. -/
def requestMatcher (pattern : Pattern) (req : ObservedRequest) : Bool :=
  match pattern with
  | .str s => strIncludes (flatRequestUrl req) s
  | .regex ts => regexTest ts (flatRequestUrl req)

/-- `responseMatcher` from `src/index.ts`: the same dispatch, applied to
`flatResponseUrl(res)`. -/
def responseMatcher (pattern : Pattern) (res : ObservedResponse) : Bool :=
  match pattern with
  | .str s => strIncludes (flatResponseUrl res) s
  | .regex ts => regexTest ts (flatResponseUrl res)

/-- `requestMatcherCb` from `src/index.ts`.  A callback is modelled as a state
transformer that may also throw: from a state and the request it produces the
state after its side effects together with `some e` if it threw `e`.  The
`try { cb(req) } catch (e) {}` of the source keeps the callback's side
effects and discards any thrown error. -/
def requestMatcherCb {σ ε : Type} (pattern : Pattern)
    (cb : σ → ObservedRequest → σ × Option ε) (st : σ) (req : ObservedRequest) :
    Bool × σ :=
  if requestMatcher pattern req then
    let r := cb st req
    (true, r.1)
  else
    (false, st)

/-- `responseMatcherCb` from `src/index.ts`, analogously. -/
def responseMatcherCb {σ ε : Type} (pattern : Pattern)
    (cb : σ → ObservedResponse → σ × Option ε) (st : σ) (res : ObservedResponse) :
    Bool × σ :=
  if responseMatcher pattern res then
    let r := cb st res
    (true, r.1)
  else
    (false, st)

/-! ## Stateful (global-flag) regular expressions

`requestMatcher` runs `pattern.test(...)` on the caller's `RegExp` object.  A
`RegExp` built with the `g` flag carries a mutable `lastIndex` that `test`
reads and writes; we model this for metacharacter-free pattern sources, where
JavaScript's match search is plain first-occurrence search. -/

/-- Character index of the first occurrence of `pat` in the string, if any. -/
def findSubstrIdx (pat : List Char) : List Char → Option Nat
  | [] => if pat.isEmpty then some 0 else none
  | c :: rest =>
    if pat.isPrefixOf (c :: rest) then some 0
    else (findSubstrIdx pat rest).map (· + 1)

/-- A JavaScript `RegExp` whose source has no metacharacters, with its flags
and its mutable `lastIndex` property (threaded explicitly). -/
structure JsRegExp where
  source : List Char
  global : Bool
  lastIndex : Nat
deriving DecidableEq, Repr

/-- `RegExp.prototype.test` including the `lastIndex` bookkeeping the `g`
flag switches on: the search starts at `lastIndex`; on success `lastIndex`
moves past the match, on failure it resets to 0.  Without `g`, `lastIndex` is
ignored and left untouched. -/
def jsTest (r : JsRegExp) (s : List Char) : Bool × JsRegExp :=
  if r.global then
    match findSubstrIdx r.source (s.drop r.lastIndex) with
    | some i => (true, { r with lastIndex := r.lastIndex + i + r.source.length })
    | none => (false, { r with lastIndex := 0 })
  else
    ((findSubstrIdx r.source s).isSome, r)

/-- `requestMatcher(pattern)` when the caller supplies a *global* `RegExp`:
each call of the returned closure runs `pattern.test(flatRequestUrl(req))`,
reading and mutating the shared `pattern` object, which is threaded here. -/
def requestMatcherG (r : JsRegExp) (req : ObservedRequest) : Bool × JsRegExp :=
  jsTest r (flatRequestUrl req)

/-! ## Bounded event waiter (`waitForWebToServer`, `waitForFacebookPixel`) -/

/-- The pattern string `waitForWebToServer` interpolates (line 323):
`` `/web-to-server\?en=${eventName || '.*?'}&eid=${eventId}` ``. -/
def wtsPatternString (eventName eventId : List Char) : List Char :=
  "/web-to-server\\?en=".data
    ++ (if eventName.isEmpty then ".*?".data else eventName)
    ++ "&eid=".data ++ eventId

/-- The compiled regular expression of `waitForWebToServer`. -/
def wtsRegex (eventName eventId : List Char) : List RegexToken :=
  parseRegex (wtsPatternString eventName eventId)

/-- The predicate `waitForWebToServer` registers with `page.waitForRequest`
(lines 326/328): `request => re.test(request.url())` — the raw URL. -/
def wtsWaitPredicate (eventName eventId : List Char) (req : ObservedRequest) :
    Bool :=
  regexTest (wtsRegex eventName eventId) req.url

/-- The pattern string `waitForFacebookPixel` interpolates (line 408):
`` `facebook.com/tr/\?id=${pixelId || '.*?'}&ev=${eventName}&.*&eid=${eventId}` ``. -/
def fbPatternString (eventName pixelId eventId : List Char) : List Char :=
  "facebook.com/tr/\\?id=".data
    ++ (if pixelId.isEmpty then ".*?".data else pixelId)
    ++ "&ev=".data ++ eventName
    ++ "&.*&eid=".data ++ eventId

/-- The compiled regular expression of `waitForFacebookPixel`. -/
def fbRegex (eventName pixelId eventId : List Char) : List RegexToken :=
  parseRegex (fbPatternString eventName pixelId eventId)

/-- The predicate `waitForFacebookPixel` registers with `page.waitForRequest`
(lines 411/413): `request => re.test(request.url())` — the raw URL. -/
def fbWaitPredicate (eventName pixelId eventId : List Char)
    (req : ObservedRequest) : Bool :=
  regexTest (fbRegex eventName pixelId eventId) req.url

/-- The `response` part of the JSON body `waitForWebToServer` decodes
(Facebook CAPI shape, lines 334–338). -/
structure WtsCapiResponse where
  events_received : Int
  messages : List (List Char)
  fbtrace_id : List Char
deriving DecidableEq, Repr

/-- The whole decoded JSON response body (lines 330–339); `δ` is the type of
decoded JSON payloads. -/
structure WtsResponseBody (δ : Type) where
  request_data : List δ
  response : WtsCapiResponse
deriving DecidableEq, Repr

/-- What `waitForWebToServer` returns on success (line 347). -/
structure WtsResult (δ : Type) where
  event_name : List Char
  event_id : List Char
  event_data : δ
  responseBody : WtsResponseBody δ
  requestUrl : List Char
deriving DecidableEq, Repr

/-- How `waitForWebToServer` can fail after a request matched: the
`ed` parameter fails to decode (`Buffer.from`/`JSON.parse` throws, line 345),
or `events_received !== 1` and line 346 throws an `Error` carrying the decoded
`response` object (as its JSON stringification). -/
inductive WtsFailure (δ : Type) where
  | decodeFailure
  | deliveryMismatch (response : WtsCapiResponse)
deriving DecidableEq, Repr

/-- The post-match tail of `waitForWebToServer` (lines 330–347): the matched
request's query parameters `en`, `eid`, `ed` have been extracted as
`en`/`eid`/`ed`; `decode` models `JSON.parse(Buffer.from(·,
'base64').toString('utf8'))`, `none` meaning it throws.  The code decodes `ed`
first, then throws on `events_received !== 1`, else returns the record. -/
def wtsFinish {δ : Type} (requestUrl en eid ed : List Char)
    (decode : List Char → Option δ) (responseBody : WtsResponseBody δ) :
    Except (WtsFailure δ) (WtsResult δ) :=
  match decode ed with
  | none => .error .decodeFailure
  | some event_data =>
    if responseBody.response.events_received ≠ 1 then
      .error (.deliveryMismatch responseBody.response)
    else
      .ok ⟨en, eid, event_data, responseBody, requestUrl⟩

/-! ## Session-cookie persistence -/

/-- One `POST` to the remote JSON store, the observable effect of
`saveJsonToGlitch(key, data, expires)`; `γ` is the type of cookies. -/
structure GlitchWrite (γ : Type) where
  key : List Char
  data : List γ
  expires : Option Int
deriving DecidableEq, Repr

/-- `saveJsonToGlitch` (lines 93–98): performs exactly one store write.  The
returned list is the trace of writes. -/
def saveJsonToGlitch {γ : Type} (key : List Char) (data : List γ)
    (expires : Option Int) : List (GlitchWrite γ) :=
  [⟨key, data, expires⟩]

/-- `saveSessionCookies` (lines 124–129): reads the context's cookies and
calls `saveJsonToGlitch` only under `if (cookies.length)`, i.e. when the count
is non-zero.  The returned list is the trace of store writes performed. -/
def saveSessionCookies {γ : Type} (cookies : List γ) (key : List Char)
    (expires : Option Int) : List (GlitchWrite γ) :=
  if cookies.length ≠ 0 then saveJsonToGlitch key cookies expires else []

/-! ## Helper lemmas

Correctness of the executable matchers with respect to the declarative
semantics, and equations for the string-rewriting passes. -/




theorem tokMatch_nil_inv {s : List Char} (h : TokMatch [] s) : s = [] := by
  cases h; rfl

theorem tokMatch_lit_inv {c : Char} {ts : List RegexToken} {s : List Char}
    (h : TokMatch (.lit c :: ts) s) : ∃ s', s = c :: s' ∧ TokMatch ts s' := by
  cases h with
  | lit _ hm => exact ⟨_, rfl, hm⟩

theorem tokMatch_any_inv {ts : List RegexToken} {s : List Char}
    (h : TokMatch (.anyChar :: ts) s) :
    ∃ c s', s = c :: s' ∧ isDotChar c = true ∧ TokMatch ts s' := by
  cases h with
  | any hd hm => exact ⟨_, _, rfl, hd, hm⟩

theorem tokMatch_wild_inv {ts : List RegexToken} {s : List Char}
    (h : TokMatch (.wildcard :: ts) s) :
    ∃ w s', s = w ++ s' ∧ (∀ c ∈ w, isDotChar c = true) ∧ TokMatch ts s' := by
  cases h with
  | wild hw hm => exact ⟨_, _, rfl, hw, hm⟩

theorem matchPrefix_iff (ts : List RegexToken) (s : List Char) :
    matchPrefix ts s = true ↔ ∃ u v, s = u ++ v ∧ TokMatch ts u := by
  induction ts generalizing s with
  | nil =>
    constructor
    · intro _; exact ⟨[], s, rfl, TokMatch.nil⟩
    · intro _; simp [matchPrefix]
  | cons t ts ih =>
    cases t with
    | lit c =>
      cases s with
      | nil =>
        constructor
        · intro h; simp [matchPrefix] at h
        · rintro ⟨u, v, huv, hm⟩
          obtain rfl : u = [] := by
            cases u with
            | nil => rfl
            | cons a u' => exact absurd huv (by simp)
          obtain ⟨s', hs', -⟩ := tokMatch_lit_inv hm
          exact absurd hs' (by simp)
      | cons x xs =>
        constructor
        · intro h
          simp only [matchPrefix, Bool.and_eq_true, beq_iff_eq] at h
          obtain ⟨rfl, h2⟩ := h
          obtain ⟨u, v, rfl, hm⟩ := (ih xs).mp h2
          exact ⟨x :: u, v, rfl, TokMatch.lit x hm⟩
        · rintro ⟨u, v, huv, hm⟩
          obtain ⟨u', rfl, hm'⟩ := tokMatch_lit_inv hm
          simp only [List.cons_append, List.cons.injEq] at huv
          obtain ⟨rfl, huv2⟩ := huv
          simp only [matchPrefix, Bool.and_eq_true, beq_iff_eq]
          exact ⟨trivial, (ih _).mpr ⟨u', v, huv2, hm'⟩⟩
    | anyChar =>
      cases s with
      | nil =>
        constructor
        · intro h; simp [matchPrefix] at h
        · rintro ⟨u, v, huv, hm⟩
          obtain rfl : u = [] := by
            cases u with
            | nil => rfl
            | cons a u' => exact absurd huv (by simp)
          obtain ⟨c, s', hs', -, -⟩ := tokMatch_any_inv hm
          exact absurd hs' (by simp)
      | cons x xs =>
        constructor
        · intro h
          simp only [matchPrefix, Bool.and_eq_true] at h
          obtain ⟨hd, h2⟩ := h
          obtain ⟨u, v, rfl, hm⟩ := (ih xs).mp h2
          exact ⟨x :: u, v, rfl, TokMatch.any hd hm⟩
        · rintro ⟨u, v, huv, hm⟩
          obtain ⟨c, u', rfl, hd, hm'⟩ := tokMatch_any_inv hm
          simp only [List.cons_append, List.cons.injEq] at huv
          obtain ⟨rfl, huv2⟩ := huv
          simp only [matchPrefix, Bool.and_eq_true]
          exact ⟨hd, (ih _).mpr ⟨u', v, huv2, hm'⟩⟩
    | wildcard =>
      constructor
      · intro h
        simp only [matchPrefix, List.any_eq_true, List.mem_range, Bool.and_eq_true,
          List.all_eq_true] at h
        obtain ⟨i, hi, hdots, h2⟩ := h
        obtain ⟨u, v, hdrop, hm⟩ := (ih _).mp h2
        refine ⟨s.take i ++ u, v, ?_, ?_⟩
        · rw [List.append_assoc, ← hdrop, List.take_append_drop]
        · exact TokMatch.wild (fun c hc => hdots c hc) hm
      · rintro ⟨u, v, huv, hm⟩
        obtain ⟨w, u', rfl, hw, hm'⟩ := tokMatch_wild_inv hm
        simp only [matchPrefix, List.any_eq_true, List.mem_range, Bool.and_eq_true,
          List.all_eq_true]
        refine ⟨w.length, ?_, ?_, ?_⟩
        · have hlen : w.length ≤ s.length := by
            rw [huv]; simp [List.length_append]
          omega
        · intro c hc
          have hts : s.take w.length = w := by
            rw [huv, List.append_assoc, List.take_left]
          rw [hts] at hc
          exact hw c hc
        · have hds : s.drop w.length = u' ++ v := by
            rw [huv, List.append_assoc, List.drop_left]
          rw [hds]
          exact (ih _).mpr ⟨u', v, rfl, hm'⟩

theorem regexTest_iff (ts : List RegexToken) (s : List Char) :
    regexTest ts s = true ↔ RegexSearch ts s := by
  induction s with
  | nil =>
    simp only [regexTest, RegexSearch, matchPrefix_iff]
    constructor
    · rintro ⟨u, v, huv, hm⟩
      exact ⟨[], u, v, by simpa using huv, hm⟩
    · rintro ⟨p, m, q, h, hm⟩
      obtain ⟨rfl, rfl, rfl⟩ : p = [] ∧ m = [] ∧ q = [] := by
        have := h.symm
        simp only [List.append_eq_nil] at this
        tauto
      exact ⟨[], [], rfl, hm⟩
  | cons x xs ih =>
    simp only [regexTest, Bool.or_eq_true, matchPrefix_iff, ih, RegexSearch]
    constructor
    · rintro (⟨u, v, huv, hm⟩ | ⟨p, m, q, h, hm⟩)
      · exact ⟨[], u, v, by simpa using huv, hm⟩
      · exact ⟨x :: p, m, q, by simp [h], hm⟩
    · rintro ⟨p, m, q, h, hm⟩
      cases p with
      | nil => exact Or.inl ⟨m, q, by simpa using h, hm⟩
      | cons a p' =>
        simp only [List.cons_append, List.cons.injEq] at h
        exact Or.inr ⟨p', m, q, h.2, hm⟩

theorem TokMatch.append {a b : List RegexToken} {u v : List Char}
    (ha : TokMatch a u) (hb : TokMatch b v) : TokMatch (a ++ b) (u ++ v) := by
  induction ha with
  | nil => simpa using hb
  | lit c _ ih => exact TokMatch.lit c ih
  | any hd _ ih => exact TokMatch.any hd ih
  | wild hw _ ih =>
    rw [List.append_assoc]
    exact TokMatch.wild hw ih

theorem tokMatch_append_inv {a b : List RegexToken} {s : List Char}
    (h : TokMatch (a ++ b) s) :
    ∃ u v, s = u ++ v ∧ TokMatch a u ∧ TokMatch b v := by
  induction a generalizing s with
  | nil => exact ⟨[], s, rfl, TokMatch.nil, by simpa using h⟩
  | cons t a' ih =>
    cases t with
    | lit c =>
      obtain ⟨s', rfl, hm⟩ := tokMatch_lit_inv h
      obtain ⟨u, v, rfl, hu, hv⟩ := ih hm
      exact ⟨c :: u, v, rfl, TokMatch.lit c hu, hv⟩
    | anyChar =>
      obtain ⟨c, s', rfl, hd, hm⟩ := tokMatch_any_inv h
      obtain ⟨u, v, rfl, hu, hv⟩ := ih hm
      exact ⟨c :: u, v, rfl, TokMatch.any hd hu, hv⟩
    | wildcard =>
      obtain ⟨w, s', rfl, hw, hm⟩ := tokMatch_wild_inv h
      obtain ⟨u, v, rfl, hu, hv⟩ := ih hm
      exact ⟨w ++ u, v, by rw [List.append_assoc], TokMatch.wild hw hu, hv⟩

theorem tokMatch_lits_iff {w s : List Char} : TokMatch (lits w) s ↔ s = w := by
  induction w generalizing s with
  | nil =>
    constructor
    · intro h; exact tokMatch_nil_inv h
    · rintro rfl; exact TokMatch.nil
  | cons c w' ih =>
    constructor
    · intro h
      obtain ⟨s', rfl, hm⟩ := tokMatch_lit_inv h
      rw [ih.mp hm]
    · rintro rfl
      exact TokMatch.lit c (ih.mpr rfl)

theorem regexTest_infix_of_lits {A B : List RegexToken} {w s : List Char}
    (h : regexTest (A ++ (lits w ++ B)) s = true) : w <:+: s := by
  rw [regexTest_iff] at h
  obtain ⟨p, m, q, rfl, hm⟩ := h
  obtain ⟨u, v, rfl, -, hv⟩ := tokMatch_append_inv hm
  obtain ⟨u2, v2, rfl, hu2, -⟩ := tokMatch_append_inv hv
  obtain rfl := tokMatch_lits_iff.mp hu2
  exact ⟨p ++ u, v2 ++ q, by simp⟩

theorem strIncludes_iff (hay needle : List Char) :
    strIncludes hay needle = true ↔ needle <:+: hay := by
  induction hay with
  | nil =>
    simp [strIncludes]
  | cons h rest ih =>
    simp only [strIncludes, Bool.or_eq_true, List.isPrefixOf_iff_prefix, ih]
    exact (List.infix_cons_iff).symm


theorem parseRegex_lit {c : Char} (h1 : c ≠ '\\') (h2 : c ≠ '.') (rest : List Char) :
    parseRegex (c :: rest) = .lit c :: parseRegex rest := by
  rw [parseRegex.eq_def]
  split <;> simp_all

theorem parseRegex_noMeta_append {a : List Char} (b : List Char)
    (h : ∀ c ∈ a, c ≠ '\\' ∧ c ≠ '.') :
    parseRegex (a ++ b) = lits a ++ parseRegex b := by
  induction a with
  | nil => simp [lits]
  | cons c a' ih =>
    rw [List.cons_append, parseRegex_lit (h c (by simp)).1 (h c (by simp)).2]
    rw [ih fun d hd => h d (by simp [hd])]
    rfl

theorem parseRegex_noMeta {a : List Char} (h : ∀ c ∈ a, c ≠ '\\' ∧ c ≠ '.') :
    parseRegex a = lits a := by
  have h2 := parseRegex_noMeta_append [] h
  simpa [parseRegex] using h2

theorem jsRegexOrdinary_noMeta {c : Char} (h : jsRegexOrdinary c = true) :
    c ≠ '\\' ∧ c ≠ '.' := by
  constructor <;> (rintro rfl; simp [jsRegexOrdinary] at h)

theorem replNL_r {rest : List Char} (h : ∀ t, rest = '\n' :: t → False) :
    replNL ('\r' :: rest) = '&' :: replNL rest := by
  rw [replNL.eq_def]
  split
  any_goals simp_all
  rename_i h1 h2 heq
  exact absurd heq.1.symm h1

theorem replNL_other {c : Char} (h1 : c ≠ '\r') (h2 : c ≠ '\n') (rest : List Char) :
    replNL (c :: rest) = c :: replNL rest := by
  rw [replNL.eq_def]
  split <;> simp_all

theorem replNL_no_nl (s : List Char) : ∀ c ∈ replNL s, c ≠ '\r' ∧ c ≠ '\n' := by
  induction s using replNL.induct with
  | case1 => simp [replNL]
  | case2 rest ih =>
    intro c hc
    rcases List.mem_cons.mp hc with rfl | hc'
    · exact ⟨by decide, by decide⟩
    · exact ih c hc'
  | case3 rest hno ih =>
    rw [replNL_r hno]
    intro c hc
    rcases List.mem_cons.mp hc with rfl | hc'
    · exact ⟨by decide, by decide⟩
    · exact ih c hc'
  | case4 rest ih =>
    intro c hc
    rcases List.mem_cons.mp hc with rfl | hc'
    · exact ⟨by decide, by decide⟩
    · exact ih c hc'
  | case5 c rest h1 h2 h3 ih =>
    rw [replNL_other (fun hc => h2 hc) (fun hc => h3 hc)]
    intro d hd
    rcases List.mem_cons.mp hd with rfl | hd'
    · exact ⟨fun hc => h2 hc, fun hc => h3 hc⟩
    · exact ih d hd'

theorem replNL_append_noNL {a : List Char} (b : List Char)
    (h : ∀ c ∈ a, c ≠ '\r' ∧ c ≠ '\n') :
    replNL (a ++ b) = a ++ replNL b := by
  induction a with
  | nil => simp
  | cons c a' ih =>
    rw [List.cons_append, replNL_other (h c (by simp)).1 (h c (by simp)).2]
    rw [ih fun d hd => h d (by simp [hd])]
    simp

theorem replAmpAmp_other_eq {c : Char} {rest : List Char}
    (h : ∀ t, c = '&' → rest = '&' :: t → False) :
    replAmpAmp (c :: rest) = c :: replAmpAmp rest := by
  rw [replAmpAmp.eq_def]
  split <;> simp_all

theorem mem_replAmpAmp {s : List Char} : ∀ c ∈ replAmpAmp s, c ∈ s := by
  induction s using replAmpAmp.induct with
  | case1 => simp [replAmpAmp]
  | case2 rest ih =>
    intro c hc
    rcases List.mem_cons.mp hc with rfl | hc'
    · simp
    · exact List.mem_cons_of_mem _ (List.mem_cons_of_mem _ (ih c hc'))
  | case3 c rest hno ih =>
    rw [replAmpAmp_other_eq hno]
    intro d hd
    rcases List.mem_cons.mp hd with rfl | hd'
    · simp
    · exact List.mem_cons.mpr (Or.inr (ih d hd'))

theorem replAmpAmp_eq_self {s : List Char} (h : ¬ ['&', '&'] <:+: s) :
    replAmpAmp s = s := by
  induction s using replAmpAmp.induct with
  | case1 => rfl
  | case2 rest ih =>
    exact absurd ⟨[], rest, rfl⟩ h
  | case3 c rest hno ih =>
    rw [replAmpAmp_other_eq hno]
    rw [ih fun hi => h (hi.trans (List.infix_cons (List.infix_refl rest)))]

theorem mem_stripTrailingAmp {s : List Char} : ∀ c ∈ stripTrailingAmp s, c ∈ s := by
  unfold stripTrailingAmp
  split
  · intro c hc
    exact List.dropLast_subset s hc
  · intro c hc
    exact hc

theorem stripTrailingAmp_eq_self {s : List Char} (h : s.getLast? ≠ some '&') :
    stripTrailingAmp s = s := by
  unfold stripTrailingAmp
  rw [if_neg h]


/-! ## Claim theorems -/

/-- C6: for every request whose body is absent or the empty string,
`flatRequestUrl` returns the request's URL unchanged (identity, no
normalization applied). -/
theorem claim_C6_flat_empty_body_identity (url : List Char) :
    flatRequestUrl ⟨url, none⟩ = url ∧ flatRequestUrl ⟨url, some []⟩ = url := by
  constructor <;> rfl

/-- C2 counterexample: the `&&` collapse is a single non-iterated pass and the
trailing strip removes only one `&`, so a body containing `&&&&` leaves a
doubled separator in the output and a body ending in `&&&` leaves a trailing
separator. -/
theorem claim_C2_counterexample :
    (['&', '&'] <:+: flatRequestUrl ⟨"http://x".data, some "a&&&&b".data⟩) ∧
    (flatRequestUrl ⟨"http://x".data, some "a&&&".data⟩).getLast? = some '&' := by
  constructor
  · exact ⟨"http://x?a".data, "b".data, by decide⟩
  · decide

/-- C2 (amended): for every request with a non-empty body the output has no
raw newline characters; and whenever the URL has no newline characters and the
joined string (URL, one separator, body with line breaks replaced by `&`)
contains no doubled `&&` and does not end in `&`, the output is exactly that
joined string — so it contains the URL and the newline-collapsed body joined
by exactly one separator, with no doubled and no trailing separator. -/
theorem claim_C2_flat_nonempty_body (url body : List Char) (hb : body ≠ []) :
    (∀ c ∈ flatRequestUrl ⟨url, some body⟩, c ≠ '\r' ∧ c ≠ '\n') ∧
    (∀ sep : Char, sep = (if url.contains '?' then '&' else '?') →
      (∀ c ∈ url, c ≠ '\r' ∧ c ≠ '\n') →
      ¬ (['&', '&'] <:+: url ++ sep :: replNL body) →
      (url ++ sep :: replNL body).getLast? ≠ some '&' →
      flatRequestUrl ⟨url, some body⟩ = url ++ sep :: replNL body) := by
  constructor
  · intro c hc
    unfold flatRequestUrl at hc
    simp only [Option.getD_some, if_neg hb] at hc
    have hc2 := mem_stripTrailingAmp _ hc
    have hc3 := mem_replAmpAmp _ hc2
    exact replNL_no_nl _ c hc3
  · intro sep hsep hnl hdd hlast
    unfold flatRequestUrl
    simp only [Option.getD_some, if_neg hb]
    have hflat : (⟨url, some body⟩ : ObservedRequest).url
        ++ (if (⟨url, some body⟩ : ObservedRequest).url.contains '?' then ['&'] else ['?'])
        ++ body = (url ++ [sep]) ++ body := by
      show url ++ (if url.contains '?' then ['&'] else ['?']) ++ body = _
      subst hsep
      split <;> simp
    rw [hflat]
    have hsepnl : ∀ c ∈ url ++ [sep], c ≠ '\r' ∧ c ≠ '\n' := by
      intro c hc
      rcases List.mem_append.mp hc with hcu | hcs
      · exact hnl c hcu
      · have hcsep : c = sep := by simpa using hcs
        subst hcsep
        rw [hsep]
        split <;> exact ⟨by decide, by decide⟩
    rw [replNL_append_noNL body hsepnl]
    have heq : (url ++ [sep]) ++ replNL body = url ++ sep :: replNL body := by simp
    rw [heq, replAmpAmp_eq_self hdd, stripTrailingAmp_eq_self hlast]

/-- C2 witness: spec Scenario B — URL `https://x.test/a`, body `y=2\r\nz=3`. -/
theorem claim_C2_witness :
    "y=2\r\nz=3".data ≠ [] ∧
    flatRequestUrl ⟨"https://x.test/a".data, some "y=2\r\nz=3".data⟩
      = "https://x.test/a".data ++ '?' :: replNL "y=2\r\nz=3".data :=
  ⟨by decide,
    (claim_C2_flat_nonempty_body _ _ (by decide)).2 '?' (by decide) (by decide)
      (by decide) (by decide)⟩

/-- C5: a literal-string pattern matches iff it is a substring of the
canonicalized URL; a regex pattern matches iff the regex matches the
canonicalized URL under search semantics. -/
theorem claim_C5_requestMatcher_spec (s : List Char) (ts : List RegexToken)
    (req : ObservedRequest) :
    (requestMatcher (.str s) req = true ↔ s <:+: flatRequestUrl req) ∧
    (requestMatcher (.regex ts) req = true ↔ RegexSearch ts (flatRequestUrl req)) :=
  ⟨strIncludes_iff _ _, regexTest_iff _ _⟩

/-- C7: `responseMatcher` applied to a response yields the same boolean as
`requestMatcher` with the same pattern applied to the response's correlated
request (in particular, whenever the former is true so is the latter). -/
theorem claim_C7_responseMatcher_agrees (p : Pattern) (res : ObservedResponse) :
    responseMatcher p res = requestMatcher p res.request := by
  cases p <;> rfl

/-- C8: the notify variants return exactly the boolean of the plain matcher;
the callback's state effect happens exactly when the match is true; and the
error component of the callback (a thrown exception) is discarded — the result
type carries no error, and the boolean is `true` even when the callback
throws. -/
theorem claim_C8_matcherCb_spec {σ ε : Type} (p : Pattern)
    (cbq : σ → ObservedRequest → σ × Option ε)
    (cbs : σ → ObservedResponse → σ × Option ε)
    (st : σ) (req : ObservedRequest) (res : ObservedResponse) :
    requestMatcherCb p cbq st req
      = (requestMatcher p req, if requestMatcher p req then (cbq st req).1 else st) ∧
    responseMatcherCb p cbs st res
      = (responseMatcher p res, if responseMatcher p res then (cbs st res).1 else st) := by
  constructor
  · by_cases h : requestMatcher p req = true <;> simp [requestMatcherCb, h]
  · by_cases h : responseMatcher p res = true <;> simp [responseMatcherCb, h]

/-- C9: `requestMatcher` with a global-flag regex is not deterministic — on
pattern `/\/a/g` and a request whose URL ends in `/a`, the first call returns
`true` and the immediately following call on the very same request returns
`false`, because `test` advanced the pattern's `lastIndex`. -/
theorem claim_C9_global_regex_nondeterministic :
    (requestMatcherG ⟨"/a".data, true, 0⟩ ⟨"https://x.test/a".data, none⟩).1 = true ∧
    (requestMatcherG
        (requestMatcherG ⟨"/a".data, true, 0⟩ ⟨"https://x.test/a".data, none⟩).2
        ⟨"https://x.test/a".data, none⟩).1 = false := by
  decide

/-- C10: `saveSessionCookies` writes to the store iff the cookie list is
non-empty, and then performs exactly the single `saveJsonToGlitch` write; an
empty session performs no write at all. -/
theorem claim_C10_saveSessionCookies_spec {γ : Type} (cookies : List γ)
    (key : List Char) (expires : Option Int) :
    (saveSessionCookies cookies key expires = [] ↔ cookies = []) ∧
    (cookies ≠ [] →
      saveSessionCookies cookies key expires = saveJsonToGlitch key cookies expires) := by
  constructor
  · unfold saveSessionCookies
    constructor
    · intro h
      by_contra hne
      rw [if_pos (by simpa [List.length_eq_zero] using hne)] at h
      simp [saveJsonToGlitch] at h
    · intro h; subst h; simp
  · intro h
    unfold saveSessionCookies
    rw [if_pos (by simpa [List.length_eq_zero] using h)]

/-- C10 witness: a one-cookie session writes, and the write is the
`saveJsonToGlitch` one. -/
theorem claim_C10_witness :
    (saveSessionCookies [(0 : Int)] "k".data none ≠ []) ∧
    saveSessionCookies [(0 : Int)] "k".data none
      = saveJsonToGlitch "k".data [(0 : Int)] none :=
  ⟨fun h => absurd ((claim_C10_saveSessionCookies_spec [(0 : Int)] "k".data none).1.mp h)
      (by decide),
   (claim_C10_saveSessionCookies_spec [(0 : Int)] "k".data none).2 (by decide)⟩

/-- C4: after a server-side match, if the decoded response's
`events_received` is not exactly 1 the operation fails with the
delivery-mismatch error carrying the decoded response; if it is 1, it returns
the decoded event name, id, payload, response body and matched URL. -/
theorem claim_C4_wts_delivery_check {δ : Type} (requestUrl en eid ed : List Char)
    (decode : List Char → Option δ) (body : WtsResponseBody δ) (d : δ)
    (hd : decode ed = some d) :
    (body.response.events_received ≠ 1 →
      wtsFinish requestUrl en eid ed decode body
        = .error (.deliveryMismatch body.response)) ∧
    (body.response.events_received = 1 →
      wtsFinish requestUrl en eid ed decode body
        = .ok ⟨en, eid, d, body, requestUrl⟩) := by
  have key : wtsFinish requestUrl en eid ed decode body
      = if body.response.events_received ≠ 1 then
          Except.error (WtsFailure.deliveryMismatch body.response)
        else Except.ok ⟨en, eid, d, body, requestUrl⟩ := by
    unfold wtsFinish
    rw [hd]
  constructor
  · intro h; rw [key, if_pos h]
  · intro h; rw [key, if_neg (by simp [h])]

/-- C4 witness: spec Scenario C — `events_received: 0` fails with the
mismatch error carrying the response, `events_received: 1` succeeds. -/
theorem claim_C4_witness :
    wtsFinish "u".data "pv".data "e1".data "ZQ".data (fun _ => some true)
      ⟨[], ⟨0, [], "t".data⟩⟩ = .error (.deliveryMismatch ⟨0, [], "t".data⟩) ∧
    wtsFinish "u".data "pv".data "e1".data "ZQ".data (fun _ => some true)
      ⟨[], ⟨1, [], "t".data⟩⟩
      = .ok ⟨"pv".data, "e1".data, true, ⟨[], ⟨1, [], "t".data⟩⟩, "u".data⟩ :=
  ⟨(claim_C4_wts_delivery_check (δ := Bool) "u".data "pv".data "e1".data "ZQ".data
      (fun _ => some true) ⟨[], ⟨0, [], "t".data⟩⟩ true rfl).1 (by decide),
   (claim_C4_wts_delivery_check (δ := Bool) "u".data "pv".data "e1".data "ZQ".data
      (fun _ => some true) ⟨[], ⟨1, [], "t".data⟩⟩ true rfl).2 rfl⟩

/-- C1 counterexample: the wait predicates test the *raw* `request.url()`,
not the canonicalized URL.  With `eventName = "p&&q"`, `eventId = "7"`, a
request whose raw URL contains `/web-to-server?en=p&&q&eid=7` and whose body
is `x` resolves the wait, yet its canonicalized URL (where `&&` collapsed to
`&`) does not satisfy the constructed regular expression. -/
theorem claim_C1_counterexample :
    wtsWaitPredicate "p&&q".data "7".data
      ⟨"https://x.test/web-to-server?en=p&&q&eid=7".data, some "x".data⟩ = true ∧
    regexTest (wtsRegex "p&&q".data "7".data)
      (flatRequestUrl
        ⟨"https://x.test/web-to-server?en=p&&q&eid=7".data, some "x".data⟩)
      = false := by
  decide

/-- C1 (amended): for both waiter variants, the request that resolves the
wait is exactly one whose *raw* URL (`request.url()`, not the canonicalized
URL) satisfies the constructed regular expression under search semantics. -/
theorem claim_C1_wait_predicate_raw_url (en eid evn pid eid2 : List Char)
    (req : ObservedRequest) :
    (wtsWaitPredicate en eid req = true ↔ RegexSearch (wtsRegex en eid) req.url) ∧
    (fbWaitPredicate evn pid eid2 req = true ↔ RegexSearch (fbRegex evn pid eid2) req.url) :=
  ⟨regexTest_iff _ _, regexTest_iff _ _⟩


/-- A lone wildcard matches any all-dot-character string. -/
theorem tokMatch_wild_all {w : List Char} (h : ∀ c ∈ w, isDotChar c = true) :
    TokMatch [RegexToken.wildcard] w := by
  have h2 := TokMatch.wild h TokMatch.nil
  simpa using h2

/-- A regex whose token list carries the consecutive literal run `w` only
matches strings containing `w`. -/
theorem regexTest_infix_run {ts : List RegexToken} {w s : List Char}
    (A B : List RegexToken) (hts : ts = A ++ (lits w ++ B))
    (h : regexTest ts s = true) : w <:+: s := by
  subst hts
  exact regexTest_infix_of_lits h

/-- C3 counterexample: with `eventName` omitted, `waitForFacebookPixel` does
*not* match a pixel request carrying `ev=P` (the constructed pattern demands a
literally empty `ev` value), although the very same request matches when the
event name is supplied. -/
theorem claim_C3_counterexample :
    fbWaitPredicate "P".data [] []
      ⟨"z.facebook.com/tr/?id=1&ev=P&c=2&eid=3".data, none⟩ = true ∧
    fbWaitPredicate [] [] []
      ⟨"z.facebook.com/tr/?id=1&ev=P&c=2&eid=3".data, none⟩ = false := by
  decide


/-- C3 (amended): omitted filters and wildcard matching, per variant, for
filter values made of characters that are ordinary in a JavaScript regular
expression (no `\` `.` `*` `+` `?` `|` `(` `)` `[` `]` braces `^` `$` — the
code interpolates filter values into the pattern verbatim, so a metacharacter
in a filter value changes the pattern's meaning).
(1) In `waitForWebToServer`, omitting both `eventName` and `eventId` matches a
request whose URL carries *any* `en` and `eid` values (the omitted event name
becomes a `.*?` wildcard; the omitted event id leaves the pattern ending at
`&eid=`, which any eid value extends).
(2) In `waitForFacebookPixel`, omitting `pixelId` and `eventId` likewise
matches any pixel id and any event id — *provided* an `eventName` is given.
(3) But an omitted `eventName` in `waitForFacebookPixel` does **not** default
to a wildcard: the construction demands the literal text `&ev=&`, so no URL
lacking an empty `ev` value can match. -/
theorem claim_C3_amended :
    (∀ (pre name eidv rest : List Char) (pd : Option (List Char)),
      (∀ c ∈ name, isDotChar c = true) →
      wtsWaitPredicate [] []
        ⟨pre ++ ("/web-to-server?en=".data ++ (name ++ ("&eid=".data ++ (eidv ++ rest)))),
          pd⟩ = true) ∧
    (∀ (pre pidv en midv rest : List Char) (pd : Option (List Char)),
      (∀ c ∈ en, jsRegexOrdinary c = true) →
      (∀ c ∈ pidv, isDotChar c = true) →
      (∀ c ∈ midv, isDotChar c = true) →
      fbWaitPredicate en [] []
        ⟨pre ++ ("facebook.com/tr/?id=".data ++ (pidv ++ ("&ev=".data ++ (en
          ++ ('&' :: (midv ++ ("&eid=".data ++ rest))))))), pd⟩ = true) ∧
    (∀ (pid eid s : List Char) (pd : Option (List Char)),
      (∀ c ∈ pid, jsRegexOrdinary c = true) →
      (∀ c ∈ eid, jsRegexOrdinary c = true) →
      ¬ ("&ev=&".data <:+: s) →
      fbWaitPredicate [] pid eid ⟨s, pd⟩ = false) := by
  refine ⟨?_, ?_, ?_⟩
  · -- (1) web-to-server, both filters omitted
    intro pre name eidv rest pd hname
    have hw : wtsRegex [] [] = lits "/web-to-server?en=".data
        ++ (RegexToken.wildcard :: lits "&eid=".data) := by decide
    show regexTest (wtsRegex [] []) _ = true
    rw [hw]
    apply (regexTest_iff _ _).mpr
    refine ⟨pre, "/web-to-server?en=".data ++ (name ++ "&eid=".data), eidv ++ rest,
      by simp [List.append_assoc], ?_⟩
    exact TokMatch.append (tokMatch_lits_iff.mpr rfl)
      (TokMatch.wild hname (tokMatch_lits_iff.mpr rfl))
  · -- (2) pixel, pixelId and eventId omitted, eventName supplied
    intro pre pidv en midv rest pd hen0 hpid hmid
    have hen : ∀ c ∈ en, c ≠ '\\' ∧ c ≠ '.' :=
      fun c hc => jsRegexOrdinary_noMeta (hen0 c hc)
    have hreg : fbRegex en [] []
        = lits "facebook".data ++ ([RegexToken.anyChar] ++ (lits "com/tr/?id=".data
          ++ ([RegexToken.wildcard] ++ (lits "&ev=".data ++ (lits en
          ++ (RegexToken.lit '&' :: RegexToken.wildcard :: lits "&eid=".data)))))) := by
      have hgroup : fbPatternString en [] []
          = "facebook.com/tr/\\?id=".data ++ (".*?".data ++ ("&ev=".data
            ++ (en ++ "&.*&eid=".data))) := by
        simp [fbPatternString, List.append_assoc]
      show parseRegex (fbPatternString en [] []) = _
      rw [hgroup]
      have hpre : ∀ t, parseRegex ("facebook.com/tr/\\?id=".data ++ (".*?".data
          ++ ("&ev=".data ++ t)))
          = lits "facebook".data ++ ([RegexToken.anyChar] ++ (lits "com/tr/?id=".data
            ++ ([RegexToken.wildcard] ++ (lits "&ev=".data ++ parseRegex t)))) :=
        fun t => rfl
      rw [hpre, parseRegex_noMeta_append _ hen]
      rw [show parseRegex "&.*&eid=".data
          = RegexToken.lit '&' :: RegexToken.wildcard :: lits "&eid=".data by decide]
    show regexTest (fbRegex en [] []) _ = true
    rw [hreg]
    apply (regexTest_iff _ _).mpr
    refine ⟨pre, "facebook.com/tr/?id=".data ++ (pidv ++ ("&ev=".data ++ (en
      ++ ('&' :: (midv ++ "&eid=".data))))), rest, by simp [List.append_assoc], ?_⟩
    have t7 : TokMatch (RegexToken.lit '&' :: RegexToken.wildcard :: lits "&eid=".data)
        ('&' :: (midv ++ "&eid=".data)) :=
      TokMatch.lit '&' (TokMatch.wild hmid (tokMatch_lits_iff.mpr rfl))
    have T := TokMatch.append (tokMatch_lits_iff.mpr (rfl : "facebook".data = _))
      (TokMatch.append (TokMatch.any (c := '.') (by decide) TokMatch.nil)
        (TokMatch.append (tokMatch_lits_iff.mpr (rfl : "com/tr/?id=".data = _))
          (TokMatch.append (tokMatch_wild_all hpid)
            (TokMatch.append (tokMatch_lits_iff.mpr (rfl : "&ev=".data = _))
              (TokMatch.append (tokMatch_lits_iff.mpr (rfl : en = _)) t7)))))
    simpa [List.append_assoc] using T
  · -- (3) pixel, eventName omitted: the literal run `&ev=&` is mandatory
    intro pid eid s pd hpid0 heid0 hno
    have hpid : ∀ c ∈ pid, c ≠ '\\' ∧ c ≠ '.' :=
      fun c hc => jsRegexOrdinary_noMeta (hpid0 c hc)
    by_contra hcon
    have htrue : regexTest (fbRegex [] pid eid) s = true := by
      revert hcon
      show ¬ (regexTest (fbRegex [] pid eid) s = false) → _
      cases regexTest (fbRegex [] pid eid) s <;> simp
    refine absurd ?_ hno
    cases pid with
    | nil =>
      refine regexTest_infix_run
        (A := lits "facebook".data ++ ([RegexToken.anyChar] ++ (lits "com/tr/?id=".data
          ++ [RegexToken.wildcard])))
        (B := [RegexToken.wildcard] ++ (lits "&eid=".data ++ parseRegex eid)) ?_ htrue
      show fbRegex [] [] eid = _
      have hh : fbRegex [] [] eid
          = parseRegex ("facebook.com/tr/\\?id=.*?&ev=&.*&eid=".data ++ eid) := rfl
      rw [hh]
      have hpre : ∀ t, parseRegex ("facebook.com/tr/\\?id=.*?&ev=&.*&eid=".data ++ t)
          = (lits "facebook".data ++ ([RegexToken.anyChar] ++ (lits "com/tr/?id=".data
            ++ [RegexToken.wildcard]))) ++ (lits "&ev=&".data
            ++ ([RegexToken.wildcard] ++ (lits "&eid=".data ++ parseRegex t))) :=
        fun t => rfl
      rw [hpre]
    | cons c pid' =>
      refine regexTest_infix_run
        (A := (lits "facebook".data ++ ([RegexToken.anyChar] ++ lits "com/tr/?id=".data))
          ++ lits (c :: pid'))
        (B := [RegexToken.wildcard] ++ (lits "&eid=".data ++ parseRegex eid)) ?_ htrue
      have hgroup : fbPatternString [] (c :: pid') eid
          = "facebook.com/tr/\\?id=".data ++ ((c :: pid') ++ ("&ev=".data
            ++ ("&.*&eid=".data ++ eid))) := by
        simp [fbPatternString, List.append_assoc]
      show parseRegex (fbPatternString [] (c :: pid') eid) = _
      rw [hgroup]
      have hpre : ∀ t, parseRegex ("facebook.com/tr/\\?id=".data ++ t)
          = lits "facebook".data ++ ([RegexToken.anyChar]
            ++ (lits "com/tr/?id=".data ++ parseRegex t)) :=
        fun t => rfl
      rw [hpre, parseRegex_noMeta_append _ hpid]
      have htail : ∀ t, parseRegex ("&ev=".data ++ ("&.*&eid=".data ++ t))
          = lits "&ev=&".data ++ ([RegexToken.wildcard]
            ++ (lits "&eid=".data ++ parseRegex t)) := fun t => rfl
      rw [htail]
      simp [List.append_assoc]


/-- C3 witness: the amended statement at concrete inputs — a web-to-server
wait with both filters omitted matches `en=pv&eid=9`; a pixel wait with the
name supplied and id filters omitted matches `id=77...eid=5`; a pixel wait
with the name omitted rejects a URL with no empty `ev` value. -/
theorem claim_C3_witness :
    wtsWaitPredicate [] []
      ⟨"https://x.test".data ++ ("/web-to-server?en=".data ++ ("pv".data
        ++ ("&eid=".data ++ ("9".data ++ [])))), none⟩ = true ∧
    fbWaitPredicate "P".data [] []
      ⟨"https://z.test/".data ++ ("facebook.com/tr/?id=".data ++ ("77".data
        ++ ("&ev=".data ++ ("P".data ++ ('&' :: ("c=2".data
        ++ ("&eid=".data ++ "5".data))))))), none⟩ = true ∧
    fbWaitPredicate [] "1".data "3".data ⟨"https://other.test/x".data, none⟩ = false :=
  ⟨claim_C3_amended.1 "https://x.test".data "pv".data "9".data [] none (by decide),
   claim_C3_amended.2.1 "https://z.test/".data "77".data "P".data "c=2".data "5".data
     none (by decide) (by decide) (by decide),
   claim_C3_amended.2.2 "1".data "3".data "https://other.test/x".data none
     (by decide) (by decide) (by decide)⟩

end PlaywrightUtils
